/-
Verification development for the IDL extraction engine found in
`lang/syn/src/idl/file.rs`: a shallow embedding of the extraction and
resolution pipeline (program-module location, error-enum extraction,
event and type extraction, constant-backed array-length substitution,
box unwrapping, account-schema resolution, partitioning and sorting),
together with theorems settling a list of behavioural claims.

Rust strings are modelled as Lean `String`, machine integers as `Nat`,
panics and `Result` errors uniformly as `Except String`, and the
declaration tree handed over by the external parser as explicit record
types.  External collaborators whose sources are not part of the
package under verification (the doc extractor, the program/instruction
parser, the error parser, the accounts-constraint parser, the PDA seed
resolver, the naming-style converter, and the `FromStr` instance of
the canonical type) are modelled from the specification; every such
definition carries a doc comment saying so.
-/
import Mathlib

namespace AnchorIdl

/-! ### String helpers mirroring the Rust `str` operations used by the engine -/

/-- Remove every whitespace character, mirroring
`check_string.retain(|c| !c.is_whitespace())`. -/
def stripWS (s : String) : String :=
  ⟨s.data.filter (fun c => !c.isWhitespace)⟩

/-- Substring test on character lists (used to model Rust `str::contains`). -/
def isInfixL (pat : List Char) : List Char → Bool
  | [] => pat.isEmpty
  | c :: rest => pat.isPrefixOf (c :: rest) || isInfixL pat rest

/-- Rust `str::contains` for plain substring patterns. -/
def containsSubstr (s pat : String) : Bool :=
  isInfixL pat.data s.data

/-- Fuel-driven core of Rust `str::replace`: replaces non-overlapping
occurrences of `pat` left to right.  The fuel is the length of the
scanned list at the wrapper, which is always sufficient. -/
def replaceAllL (pat rep : List Char) : Nat → List Char → List Char
  | 0, l => l
  | _ + 1, [] => []
  | fuel + 1, c :: rest =>
    if pat.isPrefixOf (c :: rest) && !pat.isEmpty then
      rep ++ replaceAllL pat rep fuel ((c :: rest).drop pat.length)
    else
      c :: replaceAllL pat rep fuel rest

/-- Rust `str::replace`. -/
def replaceAll (s pat rep : String) : String :=
  ⟨replaceAllL pat.data rep.data s.data.length s.data⟩

/-- Rust `str::strip_prefix` on character lists. -/
def dropPre : List Char → List Char → Option (List Char)
  | [], l => some l
  | _ :: _, [] => none
  | p :: ps, c :: cs => if p = c then dropPre ps cs else none

/-- Rust `str::strip_suffix` on character lists, implemented by reversal. -/
def dropSuf (q l : List Char) : Option (List Char) :=
  (dropPre q.reverse l.reverse).map List.reverse

/-- Rust `str::starts_with(char)`. -/
def startsWithChar (s : String) (c : Char) : Bool :=
  match s.data with
  | [] => false
  | d :: _ => decide (d = c)

/-- Rust `str::to_lowercase` (ASCII fragment, sufficient for
identifiers). -/
def lowerStr (s : String) : String :=
  ⟨s.data.map Char.toLower⟩

/-- Split a character list at every underscore. -/
def splitUnderscore : List Char → List (List Char)
  | [] => [[]]
  | c :: rest =>
    if c = '_' then [] :: splitUnderscore rest
    else
      match splitUnderscore rest with
      | [] => [[c]]
      | w :: ws => (c :: w) :: ws

/-- Modelled from the spec: capitalisation of one word by the external
naming-style converter. -/
def capWordL : List Char → List Char
  | [] => []
  | c :: cs => c.toUpper :: cs.map Char.toLower

/-- Modelled from the spec: the external naming-style converter
(identifier → display-case identifier).  Underscore-separated words are
joined, the first word lowercased, every later word capitalised. -/
def toMixedCase (s : String) : String :=
  match (splitUnderscore s.data).filter (fun w => !w.isEmpty) with
  | [] => ""
  | w :: ws => ⟨w.map Char.toLower ++ (ws.map capWordL).flatten⟩

/-- Join strings with a separator (Rust path rendering). -/
def joinSep (sep : String) : List String → String
  | [] => ""
  | [x] => x
  | x :: y :: xs => x ++ sep ++ joinSep sep (y :: xs)

/-- Error-propagating map, modelling an iterator `map` collected through
`collect::<Result<Vec<_>>>` (or a map whose body may panic). -/
def exceptMap {α β : Type} (f : α → Except String β) : List α → Except String (List β)
  | [] => .ok []
  | a :: rest => match f a with
    | .error e => .error e
    | .ok b => match exceptMap f rest with
      | .error e => .error e
      | .ok bs => .ok (b :: bs)

/-- Error-propagating filter-map, modelling `filter_map` collected through
`collect::<Result<Vec<_>>>`. -/
def exceptFilterMap {α β : Type} (f : α → Except String (Option β)) :
    List α → Except String (List β)
  | [] => .ok []
  | a :: rest => match f a with
    | .error e => .error e
    | .ok none => exceptFilterMap f rest
    | .ok (some b) => match exceptFilterMap f rest with
      | .error e => .error e
      | .ok bs => .ok (b :: bs)

/-! ### The declaration tree handed to the engine by the external parser -/

/-- A declaration attribute: its path (as segments), its raw argument
tokens rendered to text, the collaborator-parsed argument list (`none`
when the arguments are malformed for the parser that consumes them,
modelled from the spec's "tag arguments as an opaque token list"), and
an optional doc line for the external doc extractor. -/
structure Attr where
  path : List String
  tokens : String
  args : Option (List String)
  docLine : Option String
deriving DecidableEq

/-- `attr.path.is_ident(s)`: the path is the single segment `s`. -/
def Attr.pathIsIdent (a : Attr) (s : String) : Bool :=
  decide (a.path = [s])

/-- `attr.path.segments.last().unwrap().ident` (attribute paths produced
by the parser are never empty). -/
def Attr.lastSegment (a : Attr) : String :=
  (a.path.getLast?).getD ""

/-- `parser::tts_to_string(&attr.path)`: token rendering of a path. -/
def Attr.pathTts (a : Attr) : String :=
  joinSep " :: " a.path

/-- Modelled from the spec: the external documentation extractor
(declaration attributes → optional ordered list of doc lines). -/
def docsParse (attrs : List Attr) : Option (List String) :=
  match attrs.filterMap (fun a => a.docLine) with
  | [] => none
  | ls => some ls

/-- A named field of a struct or enum variant: identifier, the rendered
token text of its type, and its attributes.  For positional (tuple)
fields the identifier is ignored. -/
structure FieldDef where
  ident : String
  tyTts : String
  attrs : List Attr
deriving DecidableEq

/-- The shape of `syn::Fields`: named, positional (unnamed), or unit. -/
inductive FieldsDef where
  | named (fs : List FieldDef)
  | unnamed (fs : List FieldDef)
  | unit
deriving DecidableEq

/-- An enum variant: identifier, field shape, and the message text
attached for error enums (consumed by the external error parser,
modelled from the spec). -/
structure VariantDef where
  ident : String
  fields : FieldsDef
  msgText : Option String
deriving DecidableEq

/-- `syn::ItemEnum` as far as the engine reads it. -/
structure ItemEnum where
  ident : String
  visPublic : Bool
  attrs : List Attr
  variants : List VariantDef
deriving DecidableEq

/-- A field of an accounts-capability structure, as produced by the
external accounts-constraint parser (`accounts::parse`), modelled from
the spec: either a composite reference to another structure by name, or
a leaf account with its parsed constraints. -/
structure AccField where
  ident : String
  isMutable : Bool
  isSignerConstraint : Bool
  tyIsSigner : Bool
  docs : Option (List String)
  pdaSeed : Option Unit
  rawAttrs : List Attr

/-- `AccountField` from the accounts-constraint parser. -/
inductive AccountField where
  | compositeField (symbol : String) (ident : String)
  | field (f : AccField)

/-- `AccountsStruct`: a parsed accounts-capability structure. -/
structure AccountsStruct where
  ident : String
  fields : List AccountField

/-- `syn::ItemStruct` as far as the engine reads it.  `accountsFields`
is modelled from the spec: the accounts-constraint payload the external
`accounts::parse` collaborator produces for structures deriving the
accounts capability. -/
structure ItemStruct where
  ident : String
  visPublic : Bool
  attrs : List Attr
  fields : FieldsDef
  accountsFields : List AccountField

/-- An instruction argument as provided by the external program parser:
name, raw argument attributes and the rendered token text of the type. -/
structure IxArg where
  name : String
  attrs : List Attr
  tyTts : String

/-- An instruction as provided by the external program parser
(modelled from the spec): identifier, the associated accounts-structure
name, docs, the raw method attributes, arguments, and the rendered
token text of the declared return type. -/
structure IxDef where
  ident : String
  anchorIdent : String
  docs : Option (List String)
  methodAttrs : List Attr
  args : List IxArg
  returnsTts : String

/-- `syn::ItemMod` as far as the engine reads it, together with the
payload the external program parser extracts from it (modelled from
the spec). -/
structure ItemMod where
  attrs : List Attr
  name : String
  docs : Option (List String)
  ixs : List IxDef

/-- `syn::ItemConst` as far as the engine reads it: identifier, the
path segments of its type when the type is a plain path, the rendered
token text of the type and of the value expression, and attributes. -/
structure ConstDecl where
  ident : String
  tyPath : Option (List String)
  tyTts : String
  exprTts : String
  attrs : List Attr
deriving DecidableEq

/-- The declaration tree (`CrateContext`) handed over by the external
parser: the modules of the root module, all structs, enums and consts,
and the outcome of the external pre-extraction safety-check pass
(modelled from the spec). -/
structure CrateContext where
  rootMods : List ItemMod
  structs : List ItemStruct
  enums : List ItemEnum
  consts : List ConstDecl
  safetyOk : Bool

/-! ### The output document model -/

/-- The canonical algebraic type (`IdlType`). -/
inductive IdlType where
  | bool | u8 | i8 | u16 | i16 | u32 | i32 | f32 | u64 | i64 | f64 | u128 | i128
  | string
  | defined (name : String)
  | option (t : IdlType)
  | vec (t : IdlType)
  | array (t : IdlType) (n : Nat)
  | tuple (ts : List IdlType)

/-- A named, typed field in the output document. -/
structure IdlField where
  name : String
  docs : Option (List String)
  ty : IdlType
  typesmithDerived : Bool

/-- Variant payload shapes of an output enum. -/
inductive EnumFields where
  | tuple (tys : List IdlType)
  | named (fields : List IdlField)

/-- An output enum variant. -/
structure IdlEnumVariant where
  name : String
  fields : Option EnumFields

/-- PDA seed metadata attached to structs (payload modelled from the
spec as the opaque token list of the seeds tag). -/
structure TypeSmithAccount where
  seeds : List String

/-- The shape of an output type definition. -/
inductive IdlTypeDefinitionTy where
  | struct (fields : List IdlField)
  | enum (variants : List IdlEnumVariant)

/-- An output type definition. -/
structure IdlTypeDefinition where
  name : String
  docs : Option (List String)
  ty : IdlTypeDefinitionTy
  typesmith : Option TypeSmithAccount

/-- A leaf account descriptor of the output account tree. -/
structure IdlAccount where
  name : String
  isMut : Bool
  isSigner : Bool
  isOptional : Option Bool
  docs : Option (List String)
  pda : Option Unit
  relations : List String
  typesmithDerived : Bool

/-- The output account tree: a leaf, or a named composite group. -/
inductive IdlAccountItem where
  | account (a : IdlAccount)
  | accounts (name : String) (items : List IdlAccountItem)

/-- An output event field. -/
structure IdlEventField where
  name : String
  ty : IdlType
  index : Bool

/-- An output event. -/
structure IdlEvent where
  name : String
  fields : List IdlEventField

/-- An output error code. -/
structure IdlErrorCode where
  code : Nat
  name : String
  msg : Option String

/-- An output constant. -/
structure IdlConst where
  name : String
  ty : IdlType
  value : String

/-- An output instruction. -/
structure IdlInstruction where
  name : String
  docs : Option (List String)
  accounts : List IdlAccountItem
  args : List IdlField
  returns : Option IdlType

/-- The final document. -/
structure Idl where
  version : String
  name : String
  docs : Option (List String)
  instructions : List IdlInstruction
  types : List IdlTypeDefinition
  accounts : List IdlTypeDefinition
  events : Option (List IdlEvent)
  errors : Option (List IdlErrorCode)
  metadata : Option Unit
  constants : List IdlConst

/-! ### The canonical type parser (modelled from the spec) -/

/-- Characters allowed in a defined-name reference. -/
def isIdentChar (c : Char) : Bool :=
  c.isAlphanum || c == '_'

/-- Decimal digits to a natural number. -/
def digitsToNat (l : List Char) : Nat :=
  l.foldl (fun n c => n * 10 + (c.toNat - '0'.toNat)) 0

/-- Bracket-depth bookkeeping for top-level splitting. -/
def depthStep (c : Char) (d : Nat) : Nat :=
  if c = '[' ∨ c = '(' ∨ c = '<' then d + 1
  else if c = ']' ∨ c = ')' ∨ c = '>' then d - 1
  else d

/-- Index of the last occurrence of `sep` at bracket depth zero. -/
def lastTopIdxAux (sep : Char) : List Char → Nat → Nat → Option Nat → Option Nat
  | [], _, _, best => best
  | c :: rest, i, d, best =>
    lastTopIdxAux sep rest (i + 1) (depthStep c d)
      (if c = sep ∧ d = 0 then some i else best)

/-- Index of the last occurrence of `sep` at bracket depth zero. -/
def lastTopIdx (sep : Char) (l : List Char) : Option Nat :=
  lastTopIdxAux sep l 0 0 none

/-- Split at every top-level comma (for tuple types). -/
def splitTopCommasAux : List Char → Nat → List Char → List (List Char)
  | [], _, cur => [cur.reverse]
  | c :: rest, d, cur =>
    if c = ',' ∧ d = 0 then cur.reverse :: splitTopCommasAux rest (depthStep c d) []
    else splitTopCommasAux rest (depthStep c d) (c :: cur)

/-- Split at every top-level comma (for tuple types). -/
def splitTopCommas (l : List Char) : List (List Char) :=
  splitTopCommasAux l 0 []

/-- Primitive kinds of the canonical type, by their textual form. -/
def primIdl (l : List Char) : Option IdlType :=
  if l = "bool".data then some .bool
  else if l = "u8".data then some .u8
  else if l = "i8".data then some .i8
  else if l = "u16".data then some .u16
  else if l = "i16".data then some .i16
  else if l = "u32".data then some .u32
  else if l = "i32".data then some .i32
  else if l = "f32".data then some .f32
  else if l = "u64".data then some .u64
  else if l = "i64".data then some .i64
  else if l = "f64".data then some .f64
  else if l = "u128".data then some .u128
  else if l = "i128".data then some .i128
  else if l = "String".data then some .string
  else none

/-- Modelled from the spec: the structural phase of the canonical type
parser (`IdlType`'s `FromStr`, whose source is not part of the package
under verification).  Works on whitespace-free text: primitive kinds,
`Vec<T>`, `Option<T>`, `[T;n]` with a literal integer length, tuples,
and defined-name references; any other shape fails. -/
def fromStrCore : Nat → List Char → Option IdlType
  | 0, _ => none
  | fuel + 1, l =>
    match primIdl l with
    | some t => some t
    | none =>
      match dropPre "Vec<".data l with
      | some rest =>
        match dropSuf ">".data rest with
        | some inner => (fromStrCore fuel inner).map .vec
        | none => none
      | none =>
        match dropPre "Option<".data l with
        | some rest =>
          match dropSuf ">".data rest with
          | some inner => (fromStrCore fuel inner).map .option
          | none => none
        | none =>
          match dropPre "[".data l with
          | some rest =>
            match dropSuf "]".data rest with
            | some content =>
              match lastTopIdx ';' content with
              | none => none
              | some i =>
                if (content.drop (i + 1)) ≠ [] ∧ (content.drop (i + 1)).all Char.isDigit then
                  (fromStrCore fuel (content.take i)).map
                    (fun t => .array t (digitsToNat (content.drop (i + 1))))
                else none
            | none => none
          | none =>
            match dropPre "(".data l with
            | some rest =>
              match dropSuf ")".data rest with
              | some content =>
                ((splitTopCommas content).mapM (fromStrCore fuel)).map .tuple
              | none => none
            | none =>
              if l ≠ [] ∧ l.all isIdentChar then some (.defined ⟨l⟩) else none

/-- Modelled from the spec: `IdlType`'s `FromStr`.  The raw text is
normalised by dropping whitespace before structural parsing. -/
def IdlType.fromStr (s : String) : Option IdlType :=
  fromStrCore ((stripWS s).data.length + 1) (stripWS s).data

/-! ### Constant-backed array-length substitution and `to_idl_type` -/

/-- `ERROR_CODE_OFFSET`. -/
def ERROR_CODE_OFFSET : Nat := 6000

/-- The filter on `ctx.consts()` in `resolve_variable_array_lengths`:
only constants whose type is a path ending in an integer type name. -/
def isIntegerConst (c : ConstDecl) : Bool :=
  match c.tyPath with
  | some segs =>
    decide ((segs.getLast?).getD "" ∈
      ["usize", "u8", "u16", "u32", "u64", "u128",
       "isize", "i8", "i16", "i32", "i64", "i128"])
  | none => false

/-- One iteration of the loop body of `resolve_variable_array_lengths`
for the constant `constant`: look for the constant's name (verbatim or
as a `usize` cast) directly before a closing bracket in the
whitespace-stripped text; on a match, check for a crate-wide ambiguous
duplicate (same name, same type, different value) and panic, otherwise
replace every occurrence with the constant's literal value text. -/
def resolveStep (allConsts : List ConstDecl) (tts : String) (constant : ConstDecl) :
    Except String String :=
  match (if containsSubstr (stripWS tts) (constant.ident ++ "asusize]") then
           some (constant.ident ++ "asusize]")
         else if containsSubstr (stripWS tts) (constant.ident ++ "]") then
           some (constant.ident ++ "]")
         else none) with
  | none => .ok tts
  | some r =>
    if allConsts.any (fun c =>
        decide (c ≠ constant) && decide (c.ident = constant.ident) &&
        decide (c.tyPath = constant.tyPath) && decide (c.tyTts = constant.tyTts) &&
        decide (c.exprTts ≠ constant.exprTts)) then
      .error "Crate wide unique name required for array size const."
    else
      .ok (replaceAll (stripWS tts) r (constant.exprTts ++ "]"))

/-- The `for constant in ctx.consts().filter(..)` loop of
`resolve_variable_array_lengths`, threading the rewritten text. -/
def foldResolve (allConsts : List ConstDecl) : String → List ConstDecl → Except String String
  | tts, [] => .ok tts
  | tts, c :: cs =>
    match resolveStep allConsts tts c with
    | .error e => .error e
    | .ok tts' => foldResolve allConsts tts' cs

/-- `resolve_variable_array_lengths`. -/
def resolveVariableArrayLengths (ctx : CrateContext) (tts : String) : Except String String :=
  foldResolve ctx.consts tts (ctx.consts.filter isIntegerConst)

/-- The `Box < T >  →  T` rewriting step of `to_idl_type`:
`strip_prefix("Box < ").and_then(strip_suffix(" >")).unwrap_or(original)`. -/
def stripBox (t : String) : String :=
  match dropPre "Box < ".data t.data with
  | none => t
  | some r =>
    match dropSuf " >".data r with
    | none => t
    | some core => ⟨core⟩

/-- `to_idl_type`: render-text pre-passes (constant substitution when
the form denotes an array, box unwrapping) followed by the structural
parse; an unparsable result is the `unwrap` panic of the source. -/
def toIdlType (ctx : CrateContext) (tyTts : String) : Except String IdlType :=
  match (if startsWithChar tyTts '[' then resolveVariableArrayLengths ctx tyTts
         else .ok tyTts) with
  | .error e => .error e
  | .ok tts =>
    match IdlType.fromStr (stripBox tts) with
    | some t => .ok t
    | none => .error ("failed to parse IdlType: " ++ stripBox tts)

/-! ### Declaration extractors -/

/-- Number of `program` tags on a module. -/
def programAttrCount (m : ItemMod) : Nat :=
  (m.attrs.filter (fun a => decide (a.lastSegment = "program"))).length

/-- The modules of the root module tagged exactly once with `program`. -/
def programModCandidates (ctx : CrateContext) : List ItemMod :=
  ctx.rootMods.filter (fun m => decide (programAttrCount m = 1))

/-- `parse_program_mod`: the unique candidate module, if there is
exactly one. -/
def parseProgramMod (ctx : CrateContext) : Option ItemMod :=
  match programModCandidates ctx with
  | [m] => some m
  | _ => none

/-- Number of `error_code` tags on an enum. -/
def errAttrCount (e : ItemEnum) : Nat :=
  (e.attrs.filter (fun a => decide (a.lastSegment = "error_code"))).length

/-- `parse_error_enum` over the enum list: the lazy
`filter_map(..).next()` of the source stops at the first enum tagged
exactly once; an enum tagged more than once panics when reached. -/
def parseErrorEnumL : List ItemEnum → Except String (Option ItemEnum)
  | [] => .ok none
  | e :: rest =>
    match errAttrCount e with
    | 0 => parseErrorEnumL rest
    | 1 => .ok (some e)
    | _ + 2 => .error "Invalid syntax: one error attribute allowed"

/-- `parse_error_enum`. -/
def parseErrorEnum (ctx : CrateContext) : Except String (Option ItemEnum) :=
  parseErrorEnumL ctx.enums

/-- Number of `event` tags on a struct. -/
def eventAttrCount (s : ItemStruct) : Nat :=
  (s.attrs.filter (fun a => decide (a.lastSegment = "event"))).length

/-- `parse_events` over the struct list: collects every struct tagged
exactly once; any struct tagged more than once panics. -/
def parseEventsL : List ItemStruct → Except String (List ItemStruct)
  | [] => .ok []
  | s :: rest =>
    match eventAttrCount s with
    | 0 => parseEventsL rest
    | 1 => match parseEventsL rest with
      | .error e => .error e
      | .ok ss => .ok (s :: ss)
    | _ + 2 => .error "Invalid syntax: one event attribute allowed"

/-- `parse_events`. -/
def parseEvents (ctx : CrateContext) : Except String (List ItemStruct) :=
  parseEventsL ctx.structs

/-- Number of `account`/`associated` tags on a struct. -/
def accountAttrCount (s : ItemStruct) : Nat :=
  (s.attrs.filter (fun a =>
    decide (a.lastSegment = "account") || decide (a.lastSegment = "associated"))).length

/-- `parse_accounts` over the struct list (same panic message as the
event extractor in the source). -/
def parseAccountsL : List ItemStruct → Except String (List ItemStruct)
  | [] => .ok []
  | s :: rest =>
    match accountAttrCount s with
    | 0 => parseAccountsL rest
    | 1 => match parseAccountsL rest with
      | .error e => .error e
      | .ok ss => .ok (s :: ss)
    | _ + 2 => .error "Invalid syntax: one event attribute allowed"

/-- `parse_accounts`. -/
def parseAccounts (ctx : CrateContext) : Except String (List ItemStruct) :=
  parseAccountsL ctx.structs

/-- `DERIVE_NAME`. -/
def DERIVE_NAME : String := "Accounts"

/-- Modelled from the spec: the external accounts-constraint parser
(`accounts::parse`), returning the payload recorded on the struct. -/
def accountsParse (s : ItemStruct) : AccountsStruct :=
  ⟨s.ident, s.accountsFields⟩

/-- `parse_account_derives`: every struct with a `derive` attribute
whose tokens mention `Accounts`, keyed by name. -/
def parseAccountDerives (ctx : CrateContext) : List (String × AccountsStruct) :=
  ctx.structs.filterMap (fun s =>
    if s.attrs.any (fun a => a.pathIsIdent "derive" && containsSubstr a.tokens DERIVE_NAME)
    then some (s.ident, accountsParse s)
    else none)

/-- `HashMap::get` over the association list built by collecting
key/value pairs: a later insertion with the same key overwrites an
earlier one, so the last binding wins. -/
def hmGet (l : List (String × AccountsStruct)) (k : String) : Option AccountsStruct :=
  (l.reverse.find? (fun p => decide (p.1 = k))).map (fun p => p.2)

/-- `parse_consts`: constants carrying a `constant` tag. -/
def parseConsts (ctx : CrateContext) : List ConstDecl :=
  ctx.consts.filter (fun c => c.attrs.any (fun a => decide (a.lastSegment = "constant")))

/-! ### `parse_ty_defs` -/

/-- The serialisability test of `parse_ty_defs`: one of the tags
`account`/`associated`/`event`/`zero_copy`, or a `derive` tag whose
tokens mention both serialise and deserialise capabilities. -/
def serializableAttrs (attrs : List Attr) : Bool :=
  attrs.any (fun attr =>
    (decide (attr.lastSegment = "account") || decide (attr.lastSegment = "associated") ||
     decide (attr.lastSegment = "event") || decide (attr.lastSegment = "zero_copy")) ||
    (decide (attr.lastSegment = "derive") &&
     containsSubstr attr.tokens "AnchorSerialize" &&
     containsSubstr attr.tokens "AnchorDeserialize"))

/-- The unpackable test of `parse_ty_defs`: a `derive` tag whose tokens
mention `Unpackable`. -/
def structUnpackable (s : ItemStruct) : Bool :=
  s.attrs.any (fun attr =>
    decide (attr.lastSegment = "derive") && containsSubstr attr.tokens "Unpackable")

/-- The seeds-tag lookup of `parse_ty_defs`: the first `seeds` attribute
is handed to the external seed-type parser (modelled from the spec as
the attribute's opaque argument-token list, `none` when malformed);
a malformed tag is a fatal parse error. -/
def structSeeds (s : ItemStruct) : Except String (Option TypeSmithAccount) :=
  match s.attrs.find? (fun a => a.pathIsIdent "seeds") with
  | none => .ok none
  | some attr =>
    match attr.args with
    | none => .error "Error parsing seeds attribute"
    | some toks => .ok (some ⟨toks⟩)

/-- One named struct field mapped to an output field by `parse_ty_defs`. -/
def mkStructField (ctx : CrateContext) (noDocs : Bool) (f : FieldDef) :
    Except String IdlField :=
  match toIdlType ctx f.tyTts with
  | .error e => .error e
  | .ok ty =>
    .ok ⟨toMixedCase f.ident, (if !noDocs then docsParse f.attrs else none), ty, false⟩

/-- The struct arm of `parse_ty_defs` for one struct: `ok none` is the
iterator's silent skip, errors are fatal; the second component is the
synthetic `Unpacked` duplicate when the struct is unpackable. -/
def structStep (ctx : CrateContext) (noDocs : Bool) (s : ItemStruct) :
    Except String (Option (IdlTypeDefinition × Option IdlTypeDefinition)) :=
  if !serializableAttrs s.attrs then .ok none
  else
    match structSeeds s with
    | .error e => .error e
    | .ok typesmith =>
      if !s.visPublic then .ok none
      else
        match s.fields with
        | .unnamed _ => .ok none
        | .unit => .error "Empty structs are allowed."
        | .named fs =>
          match exceptMap (mkStructField ctx noDocs) fs with
          | .error e => .error e
          | .ok fields =>
            let d : IdlTypeDefinition :=
              ⟨s.ident, (if !noDocs then docsParse s.attrs else none),
               .struct fields, typesmith⟩
            .ok (some (d,
              if structUnpackable s then
                some { d with
                  name := d.name ++ "Unpacked",
                  docs := some ["Unpacked version of [`" ++ d.name ++ "`]"] }
              else none))

/-- The struct pass of `parse_ty_defs`: primary definitions in order,
plus the accumulated `Unpacked` duplicates. -/
def tyDefsStructs (ctx : CrateContext) (noDocs : Bool) :
    List ItemStruct → Except String (List IdlTypeDefinition × List IdlTypeDefinition)
  | [] => .ok ([], [])
  | s :: rest =>
    match structStep ctx noDocs s with
    | .error e => .error e
    | .ok none => tyDefsStructs ctx noDocs rest
    | .ok (some (d, u)) =>
      match tyDefsStructs ctx noDocs rest with
      | .error e => .error e
      | .ok (ds, us) =>
        .ok (d :: ds, match u with | some x => x :: us | none => us)

/-- One enum variant mapped to an output variant by `parse_ty_defs`. -/
def mkEnumVariant (ctx : CrateContext) (noDocs : Bool) (v : VariantDef) :
    Except String IdlEnumVariant :=
  match v.fields with
  | .unit => .ok ⟨v.ident, none⟩
  | .unnamed fs =>
    match exceptMap (fun f => toIdlType ctx f.tyTts) fs with
    | .error e => .error e
    | .ok tys => .ok ⟨v.ident, some (.tuple tys)⟩
  | .named fs =>
    match exceptMap (fun f =>
        match toIdlType ctx f.tyTts with
        | .error e => .error e
        | .ok ty =>
          .ok (⟨f.ident, (if !noDocs then docsParse f.attrs else none), ty, false⟩ :
            IdlField)) fs with
    | .error e => .error e
    | .ok fields => .ok ⟨v.ident, some (.named fields)⟩

/-- The enum arm of `parse_ty_defs` for one enum. -/
def enumStep (ctx : CrateContext) (noDocs : Bool) (e : ItemEnum) :
    Except String (Option IdlTypeDefinition) :=
  if !serializableAttrs e.attrs then .ok none
  else if !e.visPublic then .ok none
  else
    match exceptMap (mkEnumVariant ctx noDocs) e.variants with
    | .error err => .error err
    | .ok variants =>
      .ok (some ⟨e.ident, (if !noDocs then docsParse e.attrs else none),
        .enum variants, none⟩)

/-- `parse_ty_defs`: the struct pass chained with the enum pass, with
the `Unpacked` duplicates extended at the end. -/
def parseTyDefs (ctx : CrateContext) (noDocs : Bool) :
    Except String (List IdlTypeDefinition) :=
  match tyDefsStructs ctx noDocs ctx.structs with
  | .error e => .error e
  | .ok (ds, us) =>
    match exceptFilterMap (enumStep ctx noDocs) ctx.enums with
    | .error e => .error e
    | .ok es => .ok (ds ++ es ++ us)

/-! ### `idl_accounts` -/

/-- Modelled from the spec: the external PDA seed resolver
(structure + field + feature flag → optional seed descriptor); the
feature flag gates resolution. -/
def pdaParse (_ctx : CrateContext) (_accounts : AccountsStruct) (acc : AccField)
    (seedsFeature : Bool) : Option Unit :=
  if seedsFeature then acc.pdaSeed else none

/-- `is_typesmith_derived`: a dedicated zero-argument `derived` tag. -/
def isTypesmithDerived (attrs : List Attr) : Bool :=
  attrs.any (fun attr => attr.pathIsIdent "derived" && decide (attr.tokens = ""))

/-- `idl_accounts`.  The source recurses through the global name map
with no depth guard (composition is assumed acyclic, per the spec);
the fuel makes the recursion total, erroring only when the bound is
hit, which never happens on acyclic inputs given enough fuel. -/
def idlAccounts : Nat → CrateContext → AccountsStruct → List (String × AccountsStruct) →
    Bool → Bool → Except String (List IdlAccountItem)
  | 0, _, _, _, _, _ => .error "recursion depth exceeded"
  | fuel + 1, ctx, accounts, globalAccs, seedsFeature, noDocs =>
    exceptMap (fun acc =>
      match acc with
      | .compositeField symbol ident =>
        match hmGet globalAccs symbol with
        | none => .error ("Could not resolve Accounts symbol " ++ symbol)
        | some accsStrct =>
          match idlAccounts fuel ctx accsStrct globalAccs seedsFeature noDocs with
          | .error e => .error e
          | .ok items => .ok (.accounts (toMixedCase ident) items)
      | .field a =>
        .ok (.account
          { name := toMixedCase a.ident
            isMut := a.isMutable
            isSigner := if a.tyIsSigner then true else a.isSignerConstraint
            isOptional := none
            docs := if !noDocs then a.docs else none
            pda := pdaParse ctx accounts a seedsFeature
            relations := []
            typesmithDerived := isTypesmithDerived a.rawAttrs }))
      accounts.fields

/-! ### Instruction, event, error-code and constant builders -/

/-- One instruction argument mapped to an output field. -/
def mkIxArg (ctx : CrateContext) (noDocs : Bool) (derivedArgsVec : List String)
    (arg : IxArg) : Except String IdlField :=
  match toIdlType ctx arg.tyTts with
  | .error e => .error e
  | .ok ty =>
    .ok ⟨toMixedCase arg.name, (if !noDocs then docsParse arg.attrs else none), ty,
      decide (lowerStr arg.name ∈ derivedArgsVec)⟩

/-- The `derived_args` attribute of an instruction, lowercased; a
malformed attribute is a fatal parse error. -/
def derivedArgsOf (ix : IxDef) : Except String (List String) :=
  match ix.methodAttrs.find? (fun a => a.pathIsIdent "derived_args") with
  | none => .ok []
  | some attr =>
    match attr.args with
    | none => .error ("Failed to parse Instruction " ++ toMixedCase ix.ident ++
        " derived_args attribute")
    | some l => .ok (l.map lowerStr)

/-- One instruction of the program module mapped to an output
instruction (the body of the big `map` in `parse`). -/
def mkInstruction (ctx : CrateContext) (accs : List (String × AccountsStruct))
    (seedsFeature noDocs : Bool) (fuel : Nat) (ix : IxDef) :
    Except String IdlInstruction :=
  match derivedArgsOf ix with
  | .error e => .error e
  | .ok derivedArgsVec =>
    match exceptMap (mkIxArg ctx noDocs derivedArgsVec) ix.args with
    | .error e => .error e
    | .ok args =>
      match hmGet accs ix.anchorIdent with
      | none => .error "accounts struct not found"
      | some accountsStrct =>
        match idlAccounts fuel ctx accountsStrct accs seedsFeature noDocs with
        | .error e => .error e
        | .ok accounts =>
          match (if ix.returnsTts = "()" then Except.ok none
                 else match IdlType.fromStr ix.returnsTts with
                   | some t => Except.ok (some t)
                   | none => (Except.error "return type parse failed" :
                       Except String (Option IdlType))) with
          | .error e => .error e
          | .ok returns =>
            .ok ⟨toMixedCase ix.ident, ix.docs, accounts, args, returns⟩

/-- One event field mapped to an output event field: `index` is set
exactly when the first attached attribute's path renders to `index`. -/
def mkEventField (ctx : CrateContext) (f : FieldDef) : Except String IdlEventField :=
  match toIdlType ctx f.tyTts with
  | .error e => .error e
  | .ok ty =>
    .ok ⟨toMixedCase f.ident, ty,
      match f.attrs.head? with
      | none => false
      | some a => decide (a.pathTts = "index")⟩

/-- One event struct mapped to an output event; non-named fields panic. -/
def mkEvent (ctx : CrateContext) (e : ItemStruct) : Except String IdlEvent :=
  match e.fields with
  | .named fs =>
    match exceptMap (mkEventField ctx) fs with
    | .error err => .error err
    | .ok fields => .ok ⟨e.ident, fields⟩
  | _ => .error "Event fields must be named"

/-- A raw error code produced by the external error parser. -/
structure ErrorCodeRaw where
  id : Nat
  ident : String
  msg : Option String

/-- The external error parser's result. -/
structure IdlError where
  name : String
  codes : List ErrorCodeRaw

/-- Modelled from the spec: the numbering of error-enum variants by
their declared ordinal, performed by the external error parser. -/
def numberVariants (start : Nat) : List VariantDef → List ErrorCodeRaw
  | [] => []
  | v :: vs => ⟨start, v.ident, v.msgText⟩ :: numberVariants (start + 1) vs

/-- Modelled from the spec: the external error parser (`error::parse`),
whose source is not part of the package under verification: it records
the enum's name and numbers its variants from ordinal zero. -/
def errorParse (e : ItemEnum) : IdlError :=
  ⟨e.ident, numberVariants 0 e.variants⟩

/-- The error-code construction in `parse`: base offset plus raw id. -/
def mkErrorCodes (e : IdlError) : List IdlErrorCode :=
  e.codes.map (fun code => ⟨ERROR_CODE_OFFSET + code.id, code.ident, code.msg⟩)

/-- One tagged constant mapped to an output constant; the type text is
parsed by the canonical parser (panicking `unwrap` on failure), the
value text is kept verbatim. -/
def mkConst (c : ConstDecl) : Except String IdlConst :=
  match IdlType.fromStr c.tyTts with
  | some ty => .ok ⟨c.ident, ty, c.exprTts⟩
  | none => .error "const type parse failed"

/-! ### Partitioning, sorting, assembly -/

/-- The partition loop of `parse`: a resolved type definition goes to
the accounts section when its name matches an account-capability
structure, is dropped when it matches an event name, goes to the types
section otherwise; the error type's name goes nowhere. -/
def partitionTys : List IdlTypeDefinition → String → List String → List IdlEvent →
    List IdlTypeDefinition × List IdlTypeDefinition
  | [], _, _, _ => ([], [])
  | td :: rest, errorName, accountNames, events =>
    if td.name ≠ errorName then
      if td.name ∈ accountNames then
        (td :: (partitionTys rest errorName accountNames events).1,
         (partitionTys rest errorName accountNames events).2)
      else if ¬ (∃ e ∈ events, e.name = td.name) then
        ((partitionTys rest errorName accountNames events).1,
         td :: (partitionTys rest errorName accountNames events).2)
      else partitionTys rest errorName accountNames events
    else partitionTys rest errorName accountNames events

/-- Insertion into a list sorted by key, after every element whose key
is not greater (so the overall sort is stable, like Rust's `sort_by`). -/
def insertSorted {α : Type} (key : α → String) (x : α) : List α → List α
  | [] => [x]
  | y :: ys => if key y ≤ key x then y :: insertSorted key x ys else x :: y :: ys

/-- `sort_by(|a, b| a.name.cmp(&b.name))`: a stable sort by key. -/
def sortOn {α : Type} (key : α → String) (l : List α) : List α :=
  l.foldl (fun acc x => insertSorted key x acc) []

/-- The program payload produced by the external program parser. -/
structure Program where
  name : String
  docs : Option (List String)
  ixs : List IxDef

/-- Modelled from the spec: the external program/instruction parser
(`program::parse`), returning the payload recorded on the module. -/
def programParse (m : ItemMod) : Except String Program :=
  .ok ⟨m.name, m.docs, m.ixs⟩

/-- The `no_docs` scrub applied to the parsed program in `parse`. -/
def scrubProgram (noDocs : Bool) (p : Program) : Program :=
  if noDocs then ⟨p.name, none, p.ixs.map (fun ix => { ix with docs := none })⟩ else p

/-- `parse`: the whole extraction pipeline, producing `ok none` when no
single program module is found, a fatal error on any panic or `Err` of
the source, and the assembled, sorted document otherwise.  The fuel
bounds the account-schema recursion (see `idlAccounts`). -/
def parse (ctx : CrateContext) (version : String)
    (seedsFeature noDocs safetyChecks : Bool) (fuel : Nat) :
    Except String (Option Idl) :=
  if safetyChecks && !ctx.safetyOk then .error "safety checks failed"
  else
    match parseProgramMod ctx with
    | none => .ok none
    | some programMod =>
      match programParse programMod with
      | .error e => .error e
      | .ok p0 =>
        match parseErrorEnum ctx with
        | .error e => .error e
        | .ok errorEnumOpt =>
          match exceptMap
              (mkInstruction ctx (parseAccountDerives ctx) seedsFeature noDocs fuel)
              (scrubProgram noDocs p0).ixs with
          | .error e => .error e
          | .ok instructions =>
            match parseEvents ctx with
            | .error e => .error e
            | .ok eventStructs =>
              match exceptMap (mkEvent ctx) eventStructs with
              | .error e => .error e
              | .ok events =>
                match parseTyDefs ctx noDocs with
                | .error e => .error e
                | .ok tyDefs =>
                  match parseAccounts ctx with
                  | .error e => .error e
                  | .ok accountStructs =>
                    match exceptMap mkConst (parseConsts ctx) with
                    | .error e => .error e
                    | .ok constants =>
                      .ok (some
                        { version := version
                          name := (scrubProgram noDocs p0).name
                          docs := (scrubProgram noDocs p0).docs
                          instructions := sortOn IdlInstruction.name instructions
                          types := sortOn IdlTypeDefinition.name
                            (partitionTys tyDefs
                              (((errorEnumOpt.map errorParse).map IdlError.name).getD "")
                              (accountStructs.map ItemStruct.ident) events).2
                          accounts := sortOn IdlTypeDefinition.name
                            (partitionTys tyDefs
                              (((errorEnumOpt.map errorParse).map IdlError.name).getD "")
                              (accountStructs.map ItemStruct.ident) events).1
                          events :=
                            match sortOn IdlEvent.name events with
                            | [] => none
                            | es => some es
                          errors := (errorEnumOpt.map errorParse).map mkErrorCodes
                          metadata := none
                          constants := sortOn IdlConst.name constants })

/-! ### Supporting lemmas -/

theorem chain'_insertSorted {α : Type} (key : α → String) (x : α) :
    ∀ l : List α, List.Chain' (fun a b => key a ≤ key b) l →
      List.Chain' (fun a b => key a ≤ key b) (insertSorted key x l)
  | [], _ => by simp [insertSorted]
  | y :: ys, h => by
    rw [insertSorted]
    split
    · rename_i hyx
      have hys : List.Chain' (fun a b => key a ≤ key b) ys := (List.chain'_cons'.mp h).2
      have ih := chain'_insertSorted key x ys hys
      refine List.chain'_cons'.mpr ⟨?_, ih⟩
      intro z hz
      cases ys with
      | nil =>
        simp [insertSorted] at hz
        subst hz
        exact hyx
      | cons w ws =>
        rw [insertSorted] at hz
        split at hz
        · simp at hz
          subst hz
          exact (List.chain'_cons.mp h).1
        · simp at hz
          subst hz
          exact hyx
    · rename_i hyx
      exact List.chain'_cons.mpr ⟨le_of_not_le hyx, h⟩

theorem chain'_foldl_insert {α : Type} (key : α → String) :
    ∀ (l acc : List α), List.Chain' (fun a b => key a ≤ key b) acc →
      List.Chain' (fun a b => key a ≤ key b)
        (l.foldl (fun acc x => insertSorted key x acc) acc)
  | [], _, h => h
  | x :: xs, acc, h =>
    chain'_foldl_insert key xs (insertSorted key x acc) (chain'_insertSorted key x acc h)

theorem chain'_sortOn {α : Type} (key : α → String) (l : List α) :
    List.Chain' (fun a b => key a ≤ key b) (sortOn key l) :=
  chain'_foldl_insert key l [] (by simp)

theorem exceptMap_ok_mem {α β : Type} (f : α → Except String β) :
    ∀ (l : List α) (r : List β), exceptMap f l = .ok r →
      ∀ b ∈ r, ∃ a ∈ l, f a = .ok b
  | [], r, h => by
    simp [exceptMap] at h
    subst h
    simp
  | a :: rest, r, h => by
    rw [exceptMap] at h
    split at h
    · exact absurd h (by simp)
    · rename_i b hb
      split at h
      · exact absurd h (by simp)
      · rename_i bs hbs
        simp only [Except.ok.injEq] at h
        subst h
        intro c hc
        rcases List.mem_cons.mp hc with hc | hc
        · exact ⟨a, List.mem_cons_self a rest, hc ▸ hb⟩
        · rcases exceptMap_ok_mem f rest bs hbs c hc with ⟨a', ha', hfa'⟩
          exact ⟨a', List.mem_cons_of_mem a ha', hfa'⟩

theorem exceptMap_map_eq {α β γ : Type} (f : α → Except String β) (g : β → γ)
    (h : α → γ) (H : ∀ a b, f a = .ok b → g b = h a) :
    ∀ (l : List α) (r : List β), exceptMap f l = .ok r → r.map g = l.map h
  | [], r, hr => by
    simp [exceptMap] at hr
    subst hr
    simp
  | a :: rest, r, hr => by
    rw [exceptMap] at hr
    split at hr
    · exact absurd hr (by simp)
    · rename_i b hb
      split at hr
      · exact absurd hr (by simp)
      · rename_i bs hbs
        simp only [Except.ok.injEq] at hr
        subst hr
        simp only [List.map_cons]
        rw [H a b hb, exceptMap_map_eq f g h H rest bs hbs]

theorem mem_partitionTys_accs (x : IdlTypeDefinition) :
    ∀ (l : List IdlTypeDefinition) (en : String) (an : List String)
      (evs : List IdlEvent),
      (x ∈ (partitionTys l en an evs).1 ↔ x ∈ l ∧ x.name ≠ en ∧ x.name ∈ an)
  | [], en, an, evs => by simp [partitionTys]
  | td :: rest, en, an, evs => by
    have ih := mem_partitionTys_accs x rest en an evs
    rw [partitionTys]
    by_cases h1 : td.name = en
    · simp only [h1, ne_eq, not_true_eq_false, if_false, ih]
      constructor
      · rintro ⟨hm, hne, han⟩
        exact ⟨List.mem_cons_of_mem _ hm, hne, han⟩
      · rintro ⟨hm, hne, han⟩
        rcases List.mem_cons.mp hm with rfl | hm
        · exact absurd h1 hne
        · exact ⟨hm, hne, han⟩
    · by_cases h2 : td.name ∈ an
      · simp only [ne_eq, h1, not_false_eq_true, if_true, h2, if_pos, List.mem_cons, ih]
        constructor
        · rintro (rfl | ⟨hm, hne, han⟩)
          · exact ⟨Or.inl rfl, h1, h2⟩
          · exact ⟨Or.inr hm, hne, han⟩
        · rintro ⟨rfl | hm, hne, han⟩
          · exact Or.inl rfl
          · exact Or.inr ⟨hm, hne, han⟩
      · by_cases h3 : ∃ e ∈ evs, e.name = td.name
        · simp only [ne_eq, h1, not_false_eq_true, if_true, h2, if_false, h3,
            not_true_eq_false, ih]
          constructor
          · rintro ⟨hm, hne, han⟩
            exact ⟨List.mem_cons_of_mem _ hm, hne, han⟩
          · rintro ⟨hm, hne, han⟩
            rcases List.mem_cons.mp hm with rfl | hm
            · exact absurd han h2
            · exact ⟨hm, hne, han⟩
        · simp only [ne_eq, h1, not_false_eq_true, if_true, h2, if_false, h3,
            not_false_eq_true, ih]
          constructor
          · rintro ⟨hm, hne, han⟩
            exact ⟨List.mem_cons_of_mem _ hm, hne, han⟩
          · rintro ⟨hm, hne, han⟩
            rcases List.mem_cons.mp hm with rfl | hm
            · exact absurd han h2
            · exact ⟨hm, hne, han⟩

theorem mem_partitionTys_tys (x : IdlTypeDefinition) :
    ∀ (l : List IdlTypeDefinition) (en : String) (an : List String)
      (evs : List IdlEvent),
      (x ∈ (partitionTys l en an evs).2 ↔
        x ∈ l ∧ x.name ≠ en ∧ x.name ∉ an ∧ ¬ ∃ e ∈ evs, e.name = x.name)
  | [], en, an, evs => by simp [partitionTys]
  | td :: rest, en, an, evs => by
    have ih := mem_partitionTys_tys x rest en an evs
    rw [partitionTys]
    by_cases h1 : td.name = en
    · simp only [h1, ne_eq, not_true_eq_false, if_false, ih]
      constructor
      · rintro ⟨hm, hr⟩
        exact ⟨List.mem_cons_of_mem _ hm, hr⟩
      · rintro ⟨hm, hne, hr⟩
        rcases List.mem_cons.mp hm with rfl | hm
        · exact absurd h1 hne
        · exact ⟨hm, hne, hr⟩
    · by_cases h2 : td.name ∈ an
      · simp only [ne_eq, h1, not_false_eq_true, if_true, h2, if_pos, ih]
        constructor
        · rintro ⟨hm, hr⟩
          exact ⟨List.mem_cons_of_mem _ hm, hr⟩
        · rintro ⟨hm, hne, han, hev⟩
          rcases List.mem_cons.mp hm with rfl | hm
          · exact absurd h2 han
          · exact ⟨hm, hne, han, hev⟩
      · by_cases h3 : ∃ e ∈ evs, e.name = td.name
        · simp only [ne_eq, h1, not_false_eq_true, if_true, h2, if_false, h3,
            not_true_eq_false, ih]
          constructor
          · rintro ⟨hm, hr⟩
            exact ⟨List.mem_cons_of_mem _ hm, hr⟩
          · rintro ⟨hm, hne, han, hev⟩
            rcases List.mem_cons.mp hm with rfl | hm
            · exact absurd h3 (by simpa using hev)
            · exact ⟨hm, hne, han, hev⟩
        · simp only [ne_eq, h1, not_false_eq_true, if_true, h2, if_false, h3,
            not_false_eq_true, List.mem_cons, ih]
          constructor
          · rintro (rfl | ⟨hm, hr⟩)
            · exact ⟨Or.inl rfl, h1, h2, by simpa using h3⟩
            · exact ⟨Or.inr hm, hr⟩
          · rintro ⟨rfl | hm, hne, han, hev⟩
            · exact Or.inl rfl
            · exact Or.inr ⟨hm, hne, han, hev⟩

/-! ### Claim C1 -/

/-- Claim C1: in the document returned by `parse`, every output category
(instructions, types, accounts, events, constants) is sorted in total
ascending, case-sensitive order by name: for every adjacent pair
`(a, b)` in each emitted sequence, `a.name ≤ b.name`. -/
theorem parse_output_sorted (ctx : CrateContext) (version : String)
    (sf nd sc : Bool) (fuel : Nat) (idl : Idl)
    (h : parse ctx version sf nd sc fuel = .ok (some idl)) :
    List.Chain' (fun a b => a.name ≤ b.name) idl.instructions ∧
    List.Chain' (fun a b => a.name ≤ b.name) idl.types ∧
    List.Chain' (fun a b => a.name ≤ b.name) idl.accounts ∧
    (∀ es, idl.events = some es → List.Chain' (fun a b => a.name ≤ b.name) es) ∧
    List.Chain' (fun a b => a.name ≤ b.name) idl.constants := by
  unfold parse at h
  split at h
  · exact Except.noConfusion h
  split at h
  · exact Option.noConfusion (Except.ok.inj h)
  split at h
  · exact Except.noConfusion h
  split at h
  · exact Except.noConfusion h
  split at h
  · exact Except.noConfusion h
  split at h
  · exact Except.noConfusion h
  split at h
  · exact Except.noConfusion h
  split at h
  · exact Except.noConfusion h
  split at h
  · exact Except.noConfusion h
  split at h
  · exact Except.noConfusion h
  have h' := Option.some.inj (Except.ok.inj h)
  subst h'
  refine ⟨chain'_sortOn _ _, chain'_sortOn _ _, chain'_sortOn _ _, ?_, chain'_sortOn _ _⟩
  intro es hes
  simp only at hes
  split at hes
  · exact Option.noConfusion hes
  · cases Option.some.inj hes
    exact chain'_sortOn _ _

def attrC1 : Attr := ⟨["program"], "", none, none⟩

def modC1 : ItemMod := ⟨[attrC1], "my_program", none, []⟩

def ctxC1 : CrateContext := ⟨[modC1], [], [], [], true⟩

def idlC1 : Idl := ⟨"0.1.0", "my_program", none, [], [], [], none, none, none, []⟩

theorem parse_output_sorted_witness :
    parse ctxC1 "0.1.0" false false false 0 = .ok (some idlC1) ∧
    (List.Chain' (fun a b => a.name ≤ b.name) idlC1.instructions ∧
     List.Chain' (fun a b => a.name ≤ b.name) idlC1.types ∧
     List.Chain' (fun a b => a.name ≤ b.name) idlC1.accounts ∧
     (∀ es, idlC1.events = some es →
        List.Chain' (fun a b => a.name ≤ b.name) es) ∧
     List.Chain' (fun a b => a.name ≤ b.name) idlC1.constants) :=
  ⟨rfl, parse_output_sorted ctxC1 "0.1.0" false false false 0 idlC1 rfl⟩

/-! ### Claim C3 -/

/-- Claim C3: if the number of modules tagged exactly once with
`program` is not exactly one (zero, or two or more), `parse` returns
the absent result `ok none` — no document, but also no error — provided
the external safety-check pass does not abort first. -/
theorem no_single_program_mod_yields_none (ctx : CrateContext) (version : String)
    (sf nd sc : Bool) (fuel : Nat)
    (hcount : (programModCandidates ctx).length ≠ 1)
    (hsafe : sc = false ∨ ctx.safetyOk = true) :
    parse ctx version sf nd sc fuel = .ok none := by
  have hpm : parseProgramMod ctx = none := by
    unfold parseProgramMod
    cases hc : programModCandidates ctx with
    | nil => rfl
    | cons m rest =>
      cases rest with
      | nil => exact absurd (by rw [hc]; rfl) hcount
      | cons m2 rest2 => rfl
  have hcond : (sc && !ctx.safetyOk) = false := by
    rcases hsafe with rfl | hok
    · rfl
    · simp [hok]
  unfold parse
  rw [hcond, hpm]
  rfl

def ctxC3 : CrateContext := ⟨[], [], [], [], true⟩

theorem no_single_program_mod_yields_none_witness :
    (programModCandidates ctxC3).length ≠ 1 ∧
    parse ctxC3 "0.1.0" false false false 0 = .ok none :=
  ⟨by decide,
   no_single_program_mod_yields_none ctxC3 "0.1.0" false false false 0 (by decide)
     (Or.inl rfl)⟩

/-! ### Claim C10 -/

/-- `a` is a leaf account descriptor somewhere inside the account tree
item. -/
inductive LeafIn : IdlAccount → IdlAccountItem → Prop where
  | here (a : IdlAccount) : LeafIn a (.account a)
  | there (a : IdlAccount) (n : String) (items : List IdlAccountItem)
      (i : IdlAccountItem) : i ∈ items → LeafIn a i → LeafIn a (.accounts n items)

/-- Claim C10: every leaf account descriptor produced by the account
schema resolver, for every input structure, global map and flag
combination, has its optional-account flag unset (`none`) and its
relations list empty. -/
theorem leaf_account_defaults :
    ∀ (fuel : Nat) (ctx : CrateContext) (accounts : AccountsStruct)
      (globalAccs : List (String × AccountsStruct)) (sf nd : Bool)
      (res : List IdlAccountItem),
      idlAccounts fuel ctx accounts globalAccs sf nd = .ok res →
      ∀ item ∈ res, ∀ a, LeafIn a item → a.isOptional = none ∧ a.relations = []
  | 0, _, _, _, _, _, _, h => Except.noConfusion h
  | fuel + 1, ctx, accounts, globalAccs, sf, nd, res, h => by
    intro item hitem a hleaf
    rw [idlAccounts] at h
    rcases exceptMap_ok_mem _ _ _ h item hitem with ⟨acc, _, hf⟩
    cases acc with
    | compositeField symbol ident =>
      simp only at hf
      split at hf
      · exact Except.noConfusion hf
      · rename_i s hg
        split at hf
        · exact Except.noConfusion hf
        · rename_i items hrec
          cases Except.ok.inj hf
          cases hleaf
          rename_i i hi hl
          exact leaf_account_defaults fuel ctx s globalAccs sf nd items hrec i hl a hi
    | field af =>
      simp only at hf
      cases Except.ok.inj hf
      cases hleaf with
      | here => exact ⟨rfl, rfl⟩

def accFieldC10 : AccField := ⟨"payer", true, true, false, none, none, []⟩

def accStructC10 : AccountsStruct := ⟨"Init", [.field accFieldC10]⟩

def ctxC10 : CrateContext := ⟨[], [], [], [], true⟩

def leafC10 : IdlAccount := ⟨"payer", true, true, none, none, none, [], false⟩

theorem leaf_account_defaults_witness :
    leafC10.isOptional = none ∧ leafC10.relations = [] :=
  leaf_account_defaults 1 ctxC10 accStructC10 [] false false
    [.account leafC10] rfl (.account leafC10) (List.mem_singleton.mpr rfl)
    leafC10 (LeafIn.here leafC10)

/-! ### Claim C2 -/

def constC2a : ConstDecl := ⟨"LEN", some ["usize"], "usize", "5", []⟩

def constC2b : ConstDecl := ⟨"LEN", some ["usize"], "usize", "6", []⟩

def ctxC2 : CrateContext := ⟨[], [], [], [constC2a, constC2b], true⟩

/-- Claim C2 counterexample: with two `LEN : usize` constants of values
`5` and `6`, substitution on `[u8 ; LEN]` does fail fatally, but with a
fixed message that does not contain the constant's name — refuting the
clause "an error naming that constant". -/
theorem ambiguous_const_message_counterexample :
    resolveVariableArrayLengths ctxC2 "[u8 ; LEN]" =
      .error "Crate wide unique name required for array size const." ∧
    containsSubstr "Crate wide unique name required for array size const." "LEN"
      = false :=
  ⟨rfl, rfl⟩

/-- Claim C2 (amended): during array-length constant substitution, if
two constant declarations share the matched name and the same integer
type but have different values, extraction fails fatally with the fixed
error message `Crate wide unique name required for array size const.`
(which does not name the constant); no document is produced. -/
theorem ambiguous_const_fatal (ctx : CrateContext) (c₁ c₂ : ConstDecl) (tts : String)
    (hconsts : ctx.consts = [c₁, c₂])
    (hint : isIntegerConst c₁ = true)
    (hname : c₂.ident = c₁.ident) (hpath : c₂.tyPath = c₁.tyPath)
    (htyts : c₂.tyTts = c₁.tyTts) (hval : c₂.exprTts ≠ c₁.exprTts)
    (hmatch : containsSubstr (stripWS tts) (c₁.ident ++ "]") = true) :
    resolveVariableArrayLengths ctx tts =
      .error "Crate wide unique name required for array size const." := by
  have hint2 : isIntegerConst c₂ = true := by
    unfold isIntegerConst at hint ⊢
    rw [hpath]
    exact hint
  have hne : c₂ ≠ c₁ := fun he => hval (by rw [he])
  have hany : ([c₁, c₂].any fun c =>
      decide (c ≠ c₁) && decide (c.ident = c₁.ident) && decide (c.tyPath = c₁.tyPath) &&
      decide (c.tyTts = c₁.tyTts) && decide (c.exprTts ≠ c₁.exprTts)) = true := by
    apply List.any_eq_true.mpr
    refine ⟨c₂, by simp, ?_⟩
    simp [hne, hname, hpath, htyts, hval]
  have hstep : resolveStep [c₁, c₂] tts c₁ =
      .error "Crate wide unique name required for array size const." := by
    unfold resolveStep
    by_cases hcast : containsSubstr (stripWS tts) (c₁.ident ++ "asusize]") = true
    · rw [if_pos hcast]
      dsimp only
      rw [if_pos hany]
    · rw [if_neg hcast, if_pos hmatch]
      dsimp only
      rw [if_pos hany]
  unfold resolveVariableArrayLengths
  rw [hconsts]
  have hfil : [c₁, c₂].filter isIntegerConst = [c₁, c₂] := by
    simp [List.filter, hint, hint2]
  rw [hfil, foldResolve, hstep]

def constC2w1 : ConstDecl := ⟨"SZ", some ["u32"], "u32", "7", []⟩

def constC2w2 : ConstDecl := ⟨"SZ", some ["u32"], "u32", "8", []⟩

def ctxC2w : CrateContext := ⟨[], [], [], [constC2w1, constC2w2], true⟩

theorem ambiguous_const_fatal_witness :
    resolveVariableArrayLengths ctxC2w "[u16 ; SZ]" =
      .error "Crate wide unique name required for array size const." :=
  ambiguous_const_fatal ctxC2w constC2w1 constC2w2 "[u16 ; SZ]"
    rfl rfl rfl rfl rfl (by decide) rfl

/-! ### Claim C4 -/

def errAttrC4 : Attr := ⟨["error_code"], "", none, none⟩

def enumC4a : ItemEnum :=
  ⟨"ErrOne", true, [errAttrC4], [⟨"A", .unit, some "a"⟩, ⟨"B", .unit, some "b"⟩]⟩

def enumC4b : ItemEnum := ⟨"ErrTwo", true, [errAttrC4], [⟨"C", .unit, some "c"⟩]⟩

def modC4 : ItemMod := ⟨[⟨["program"], "", none, none⟩], "prog", none, []⟩

def ctxC4 : CrateContext := ⟨[modC4], [], [enumC4a, enumC4b], [], true⟩

def idlC4 : Idl :=
  ⟨"0.1.0", "prog", none, [], [], [], none,
   some [⟨6000, "A", some "a"⟩, ⟨6001, "B", some "b"⟩], none, []⟩

/-- Claim C4 counterexample: a tree with two distinct enums, each
tagged `error_code` exactly once, does not make extraction fail:
`parse` succeeds and silently uses the first enum's codes. -/
theorem two_error_enums_counterexample :
    (ctxC4.enums.filter (fun e => decide (errAttrCount e = 1))).length = 2 ∧
    parse ctxC4 "0.1.0" false false false 0 = .ok (some idlC4) :=
  ⟨rfl, rfl⟩

/-- Claim C4 (amended): the error-enum extractor is lazy — the first
enum tagged exactly once with `error-code` is taken silently, even when
further tagged enums follow in the tree; extraction fails fatally only
when a single enum carries the tag more than once. -/
theorem error_enum_first_taken (e : ItemEnum) (rest : List ItemEnum) :
    (errAttrCount e = 1 → parseErrorEnumL (e :: rest) = .ok (some e)) ∧
    (2 ≤ errAttrCount e →
      parseErrorEnumL (e :: rest) =
        .error "Invalid syntax: one error attribute allowed") := by
  constructor
  · intro h
    simp [parseErrorEnumL, h]
  · intro h
    obtain ⟨k, hk⟩ : ∃ k, errAttrCount e = k + 2 := ⟨errAttrCount e - 2, by omega⟩
    simp [parseErrorEnumL, hk]

theorem error_enum_first_taken_witness :
    errAttrCount enumC4a = 1 ∧
    parseErrorEnumL [enumC4a, enumC4b] = .ok (some enumC4a) :=
  ⟨rfl, (error_enum_first_taken enumC4a [enumC4b]).1 rfl⟩

/-! ### Claim C5 -/

/-- Claim C5: when partitioning resolved type definitions into the
document: a definition named like the error enum appears in neither the
accounts nor the types category; otherwise a definition named like an
account-capability structure goes to accounts and not types; otherwise
a definition named like an event is excluded from types (and accounts);
every other definition goes to types. -/
theorem partition_spec (tds : List IdlTypeDefinition) (en : String)
    (an : List String) (evs : List IdlEvent) (td : IdlTypeDefinition)
    (hmem : td ∈ tds) :
    (td.name = en →
      td ∉ (partitionTys tds en an evs).1 ∧ td ∉ (partitionTys tds en an evs).2) ∧
    (td.name ≠ en → td.name ∈ an →
      td ∈ (partitionTys tds en an evs).1 ∧ td ∉ (partitionTys tds en an evs).2) ∧
    (td.name ≠ en → td.name ∉ an → (∃ e ∈ evs, e.name = td.name) →
      td ∉ (partitionTys tds en an evs).1 ∧ td ∉ (partitionTys tds en an evs).2) ∧
    (td.name ≠ en → td.name ∉ an → ¬ (∃ e ∈ evs, e.name = td.name) →
      td ∈ (partitionTys tds en an evs).2 ∧ td ∉ (partitionTys tds en an evs).1) := by
  refine ⟨?_, ?_, ?_, ?_⟩
  · intro he
    constructor
    · intro hx
      exact ((mem_partitionTys_accs td tds en an evs).mp hx).2.1 he
    · intro hx
      exact ((mem_partitionTys_tys td tds en an evs).mp hx).2.1 he
  · intro hne han
    constructor
    · exact (mem_partitionTys_accs td tds en an evs).mpr ⟨hmem, hne, han⟩
    · intro hx
      exact ((mem_partitionTys_tys td tds en an evs).mp hx).2.2.1 han
  · intro hne han hev
    constructor
    · intro hx
      exact han ((mem_partitionTys_accs td tds en an evs).mp hx).2.2
    · intro hx
      exact ((mem_partitionTys_tys td tds en an evs).mp hx).2.2.2 hev
  · intro hne han hev
    constructor
    · exact (mem_partitionTys_tys td tds en an evs).mpr ⟨hmem, hne, han, hev⟩
    · intro hx
      exact han ((mem_partitionTys_accs td tds en an evs).mp hx).2.2

def tdErrC5 : IdlTypeDefinition := ⟨"MyError", none, .enum [], none⟩

def tdAccC5 : IdlTypeDefinition := ⟨"Acc", none, .struct [], none⟩

def tdEvC5 : IdlTypeDefinition := ⟨"Ev", none, .struct [], none⟩

def tdTyC5 : IdlTypeDefinition := ⟨"Plain", none, .struct [], none⟩

def tdsC5 : List IdlTypeDefinition := [tdErrC5, tdAccC5, tdEvC5, tdTyC5]

def evsC5 : List IdlEvent := [⟨"Ev", []⟩]

theorem partition_spec_witness :
    tdAccC5 ∈ (partitionTys tdsC5 "MyError" ["Acc"] evsC5).1 ∧
    tdAccC5 ∉ (partitionTys tdsC5 "MyError" ["Acc"] evsC5).2 :=
  (partition_spec tdsC5 "MyError" ["Acc"] evsC5 tdAccC5
      (List.mem_cons_of_mem _ (List.mem_cons_self _ _))).2.1
    (by decide) (by decide)

/-! ### Claim C6 -/

theorem dropPre_append (p r : List Char) : dropPre p (p ++ r) = some r := by
  induction p with
  | nil => rfl
  | cons c cs ih => simp [dropPre, ih]

theorem dropSuf_append (q r : List Char) : dropSuf q (r ++ q) = some r := by
  unfold dropSuf
  rw [List.reverse_append, dropPre_append]
  simp

def constC6 : ConstDecl := ⟨"LEN", some ["usize"], "usize", "5", []⟩

def ctxC6 : CrateContext := ⟨[], [], [], [constC6], true⟩

/-- Claim C6 counterexample: with a constant `LEN : usize = 5` in scope,
the expression `[u8 ; LEN]` resolves to `array u8 5`, but
`Box < [u8 ; LEN] >` fails fatally — constant substitution runs only on
forms that start with `[`, before box unwrapping — so `Box<T>` and `T`
do not resolve identically for every `T`. -/
theorem box_unwrap_counterexample :
    toIdlType ctxC6 "[u8 ; LEN]" = .ok (.array .u8 5) ∧
    toIdlType ctxC6 "Box < [u8 ; LEN] >" =
      .error "failed to parse IdlType: [u8 ; LEN]" ∧
    toIdlType ctxC6 "Box < [u8 ; LEN] >" ≠ toIdlType ctxC6 "[u8 ; LEN]" := by
  refine ⟨rfl, rfl, ?_⟩
  intro h
  have h1 : toIdlType ctxC6 "Box < [u8 ; LEN] >" =
      .error "failed to parse IdlType: [u8 ; LEN]" := rfl
  have h2 : toIdlType ctxC6 "[u8 ; LEN]" = .ok (.array .u8 5) := rfl
  rw [h1, h2] at h
  exact Except.noConfusion h

theorem stripBox_wrap (s : String) : stripBox ("Box < " ++ s ++ " >") = s := by
  unfold stripBox
  have hdata : (("Box < " : String) ++ s ++ " >").data =
      "Box < ".data ++ (s.data ++ " >".data) := by
    rw [String.data_append, String.data_append, List.append_assoc]
  rw [hdata, dropPre_append]
  dsimp only
  rw [dropSuf_append]

/-- Claim C6 (amended): `Box<T>` and `T` resolve to identical `IdlType`
values for every `T` whose rendered form neither denotes a fixed-size
array (it does not start with `[`) nor is itself rewritten by the
box-stripping step. -/
theorem box_unwrap_eq (ctx : CrateContext) (s : String)
    (h1 : startsWithChar s '[' = false)
    (h2 : stripBox s = s) :
    toIdlType ctx ("Box < " ++ s ++ " >") = toIdlType ctx s := by
  have hb : startsWithChar ("Box < " ++ s ++ " >") '[' = false := by
    unfold startsWithChar
    have hdata : (("Box < " : String) ++ s ++ " >").data =
        'B' :: ("ox < ".data ++ (s.data ++ " >".data)) := by
      rw [String.data_append, String.data_append]
      rfl
    rw [hdata]
    rfl
  unfold toIdlType
  rw [if_neg (by rw [hb]; exact Bool.false_ne_true),
    if_neg (by rw [h1]; exact Bool.false_ne_true)]
  dsimp only
  rw [stripBox_wrap, h2]

def ctxC6w : CrateContext := ⟨[], [], [], [], true⟩

theorem box_unwrap_eq_witness :
    toIdlType ctxC6w "Box < u8 >" = toIdlType ctxC6w "u8" :=
  box_unwrap_eq ctxC6w "u8" rfl rfl

/-! ### Claim C7 -/

theorem numberVariants_getElem (l : List VariantDef) :
    ∀ (start i : Nat),
      (numberVariants start l)[i]? =
        (l[i]?).map (fun v => (⟨start + i, v.ident, v.msgText⟩ : ErrorCodeRaw)) := by
  induction l with
  | nil => intro start i; simp [numberVariants]
  | cons v vs ih =>
    intro start i
    cases i with
    | zero => simp [numberVariants]
    | succ j =>
      have harith : start + 1 + j = start + (j + 1) := by omega
      simp [numberVariants, ih (start + 1) j, harith]

/-- Claim C7: each variant of the error enum produces an `ErrorCode`
whose numeric code is the fixed base offset 6000 plus the variant's
declared ordinal, together with the variant's name and message text. -/
theorem error_codes_offset (e : ItemEnum) (i : Nat) :
    (mkErrorCodes (errorParse e))[i]? =
      (e.variants[i]?).map (fun v =>
        (⟨ERROR_CODE_OFFSET + i, v.ident, v.msgText⟩ : IdlErrorCode)) := by
  unfold mkErrorCodes errorParse
  rw [List.getElem?_map _ _ i, numberVariants_getElem e.variants 0 i]
  cases e.variants[i]? with
  | none => rfl
  | some v => simp

/-! ### Claim C8 -/

def attrC8 : Attr := ⟨["derive"], "(AnchorSerialize , AnchorDeserialize)", none, none⟩

def structC8 : ItemStruct := ⟨"Empty", true, [attrC8], .named [], []⟩

def ctxC8 : CrateContext := ⟨[], [structC8], [], [], true⟩

/-- Claim C8 counterexample: a public serialisable struct declared with
an empty named-field block — zero fields — is accepted and yields a
definition with no fields and no error, refuting "a struct declared
with zero fields causes a fatal extraction error" (only field-less
*unit* structs are fatal). -/
theorem empty_named_struct_counterexample :
    parseTyDefs ctxC8 false = .ok [⟨"Empty", none, .struct [], none⟩] := rfl

/-- Claim C8 (amended): in the type extractor, a serialisable public
struct whose fields are positional is silently dropped from the output
with no error; one declared as a unit struct (no field block at all) is
a fatal extraction error; and one declared with an empty named-field
block is accepted, yielding a definition with zero fields. -/
theorem struct_fields_shape (s : ItemStruct) (cs : List ConstDecl) (nd : Bool)
    (ts : Option TypeSmithAccount)
    (hser : serializableAttrs s.attrs = true)
    (hvis : s.visPublic = true)
    (hseeds : structSeeds s = .ok ts)
    (hunp : structUnpackable s = false) :
    (∀ fs, s.fields = .unnamed fs →
      parseTyDefs ⟨[], [s], [], cs, true⟩ nd = .ok []) ∧
    (s.fields = .unit →
      parseTyDefs ⟨[], [s], [], cs, true⟩ nd = .error "Empty structs are allowed.") ∧
    (s.fields = .named [] →
      parseTyDefs ⟨[], [s], [], cs, true⟩ nd =
        .ok [⟨s.ident, (if !nd then docsParse s.attrs else none), .struct [], ts⟩]) := by
  refine ⟨?_, ?_, ?_⟩
  · intro fs hf
    simp [parseTyDefs, tyDefsStructs, structStep, hser, hvis, hseeds, hf,
      exceptFilterMap]
  · intro hf
    simp [parseTyDefs, tyDefsStructs, structStep, hser, hvis, hseeds, hf]
  · intro hf
    simp [parseTyDefs, tyDefsStructs, structStep, hser, hvis, hseeds, hf, hunp,
      exceptMap, exceptFilterMap]

def attrC8w : Attr := ⟨["derive"], "(AnchorSerialize , AnchorDeserialize)", none, none⟩

def structC8w : ItemStruct := ⟨"Pos", true, [attrC8w], .unnamed [⟨"", "u8", []⟩], []⟩

theorem struct_fields_shape_witness :
    parseTyDefs ⟨[], [structC8w], [], [], true⟩ false = .ok [] :=
  (struct_fields_shape structC8w [] false none rfl rfl rfl rfl).1 _ rfl

/-! ### Claim C9 -/

def attrC9p : Attr := ⟨["program"], "", none, none⟩

def modC9 : ItemMod := ⟨[attrC9p], "prog", none, []⟩

def attrC9c : Attr := ⟨["constant"], "", none, none⟩

def constC9 : ConstDecl := ⟨"my_const", some ["u8"], "u8", "5", [attrC9c]⟩

def ctxC9 : CrateContext := ⟨[modC9], [], [], [constC9], true⟩

def idlC9 : Idl :=
  ⟨"0.1.0", "prog", none, [], [], [], none, none, none, [⟨"my_const", .u8, "5"⟩]⟩

/-- Claim C9 counterexample: the exported constant keeps its raw
identifier `my_const` in the document, while the naming-style converter
would give `myConst` — the converter is not applied uniformly to every
exported name. -/
theorem const_name_case_counterexample :
    parse ctxC9 "0.1.0" false false false 0 = .ok (some idlC9) ∧
    toMixedCase "my_const" = "myConst" ∧
    ("my_const" : String) ≠ "myConst" :=
  ⟨rfl, rfl, by decide⟩

/-- Claim C9 (amended): the naming-style converter is applied to
instruction names, instruction argument names, event field names and
struct-definition field names, but NOT to constant names, event names
or type-definition names, which keep their raw identifiers. -/
theorem name_case_application :
    (∀ c k, mkConst c = .ok k → k.name = c.ident) ∧
    (∀ ctx accs sf nd fuel ix i, mkInstruction ctx accs sf nd fuel ix = .ok i →
      i.name = toMixedCase ix.ident ∧
      i.args.map IdlField.name = ix.args.map (fun a => toMixedCase a.name)) ∧
    (∀ ctx e ev, mkEvent ctx e = .ok ev → ev.name = e.ident) ∧
    (∀ ctx f ef, mkEventField ctx f = .ok ef → ef.name = toMixedCase f.ident) ∧
    (∀ ctx nd s d u, structStep ctx nd s = .ok (some (d, u)) → d.name = s.ident) ∧
    (∀ ctx nd f g, mkStructField ctx nd f = .ok g → g.name = toMixedCase f.ident) := by
  refine ⟨?_, ?_, ?_, ?_, ?_, ?_⟩
  · intro c k h
    unfold mkConst at h
    split at h
    · cases Except.ok.inj h
      rfl
    · exact Except.noConfusion h
  · intro ctx accs sf nd fuel ix i h
    unfold mkInstruction at h
    split at h
    · exact Except.noConfusion h
    rename_i dav hdav
    split at h
    · exact Except.noConfusion h
    rename_i args hargs
    split at h
    · exact Except.noConfusion h
    rename_i strct hstrct
    split at h
    · exact Except.noConfusion h
    rename_i acctree hacctree
    split at h
    · exact Except.noConfusion h
    rename_i rets hrets
    cases Except.ok.inj h
    refine ⟨rfl, ?_⟩
    refine exceptMap_map_eq _ IdlField.name (fun a => toMixedCase a.name) ?_ ix.args _ hargs
    intro a b hab
    unfold mkIxArg at hab
    split at hab
    · exact Except.noConfusion hab
    · cases Except.ok.inj hab
      rfl
  · intro ctx e ev h
    unfold mkEvent at h
    split at h
    · split at h
      · exact Except.noConfusion h
      · cases Except.ok.inj h
        rfl
    · exact Except.noConfusion h
  · intro ctx f ef h
    unfold mkEventField at h
    split at h
    · exact Except.noConfusion h
    · cases Except.ok.inj h
      rfl
  · intro ctx nd s d u h
    unfold structStep at h
    split at h
    · exact Option.noConfusion (Except.ok.inj h)
    split at h
    · exact Except.noConfusion h
    split at h
    · exact Option.noConfusion (Except.ok.inj h)
    split at h
    · exact Option.noConfusion (Except.ok.inj h)
    · exact Except.noConfusion h
    split at h
    · exact Except.noConfusion h
    · cases Option.some.inj (Except.ok.inj h)
      rfl
  · intro ctx nd f g h
    unfold mkStructField at h
    split at h
    · exact Except.noConfusion h
    · cases Except.ok.inj h
      rfl

theorem name_case_application_witness :
    IdlConst.name ⟨"my_val", .u8, "3"⟩ = "my_val" :=
  name_case_application.1 ⟨"my_val", some ["u8"], "u8", "3", []⟩ ⟨"my_val", .u8, "3"⟩ rfl

end AnchorIdl
